import Mathlib

/-!
Shallow embedding of the GibberWalletWeb audio message transport protocol.

The definitions below are translated from the repository's TypeScript
sources:
 * the `Message` envelope codec and `MessageProtocol` chunking utilities
   (message-protocol.ts),
 * the `AudioProtocol` receive/send state machine (audio-protocol.ts),
 * the EIP-flavoured stack: `createEIPMessage` / `validateEIPMessage`
   (eip-config.ts) and `EIPAudioProtocol` (the chunk-capable variant),
 * the chunking configuration constants (audio-config.ts).

JavaScript's built-in `JSON.stringify` / `JSON.parse` pair is modelled by an
executable serializer and recursive-descent parser over a `Json` value type
(integers for JSON numbers, no whitespace, escaping of the quote and
backslash characters; control-character escapes and floating point numbers
are outside the fragment the protocol exercises).  Nondeterministic id
generation (`uuidv4()` / `translator.new()`) is modelled by explicit
`fresh` parameters at the call sites where the source draws a fresh id.
-/

set_option maxRecDepth 20000
set_option linter.unnecessarySeqFocus false
set_option linter.unreachableTactic false
set_option linter.unusedTactic false

namespace GW

/-- JSON values as exchanged by the protocol. -/
inductive Json where
  | null : Json
  | bool (b : Bool) : Json
  | num (n : Int) : Json
  | str (s : String) : Json
  | arr (elems : List Json) : Json
  | obj (fields : List (String × Json)) : Json

instance : Inhabited Json := ⟨Json.null⟩

/-- Decimal digit to its character. -/
def digitChar (d : Nat) : Char := Char.ofNat (48 + d)

/-- Fuel-driven decimal printer (structural, hence kernel-reducible). -/
def natCharsAux : Nat → Nat → List Char
  | 0, _ => []
  | fuel + 1, n => if n < 10 then [digitChar n] else natCharsAux fuel (n / 10) ++ [digitChar (n % 10)]

/-- Decimal representation of a natural number, most significant digit first. -/
def natChars (n : Nat) : List Char := natCharsAux (n + 1) n

/-- JSON string escaping of a single character (quote and backslash). -/
def escapeChar (c : Char) : List Char :=
  if c = '"' then ['\\', '"'] else if c = '\\' then ['\\', '\\'] else [c]

/-- JSON string escaping. -/
def escapeChars : List Char → List Char
  | [] => []
  | c :: cs => escapeChar c ++ escapeChars cs

mutual

/-- Model of `JSON.stringify` (compact form, no whitespace). -/
def stringifyVal : Json → List Char
  | .num n => if n < 0 then '-' :: natChars n.natAbs else natChars n.toNat
  | .str s => '"' :: (escapeChars s.data ++ ['"'])
  | .bool b => if b then ['t', 'r', 'u', 'e'] else ['f', 'a', 'l', 's', 'e']
  | .null => ['n', 'u', 'l', 'l']
  | .arr [] => ['[', ']']
  | .arr (v :: vs) => '[' :: (stringifyElems v vs ++ [']'])
  | .obj [] => ['{', '}']
  | .obj ((k, v) :: fs) => '{' :: (stringifyFields k v fs ++ ['}'])
termination_by j => sizeOf j
decreasing_by all_goals (simp_wf <;> omega)

/-- Comma-separated serialization of a nonempty array tail. -/
def stringifyElems (v : Json) : List Json → List Char
  | [] => stringifyVal v
  | w :: vs => stringifyVal v ++ ',' :: stringifyElems w vs
termination_by vs => sizeOf v + sizeOf vs
decreasing_by all_goals (simp_wf <;> omega)

/-- Comma-separated serialization of a nonempty field list. -/
def stringifyFields (k : String) (v : Json) : List (String × Json) → List Char
  | [] => '"' :: (escapeChars k.data ++ '"' :: ':' :: stringifyVal v)
  | (k2, v2) :: fs =>
    ('"' :: (escapeChars k.data ++ '"' :: ':' :: stringifyVal v)) ++ ',' :: stringifyFields k2 v2 fs
termination_by fs => sizeOf v + sizeOf fs
decreasing_by all_goals (simp_wf <;> omega)

end

/-- Consume an expected literal from the input. -/
def dropLit : List Char → List Char → Option (List Char)
  | [], s => some s
  | _ :: _, [] => none
  | c :: p, d :: s => if d = c then dropLit p s else none

/-- Parse the remainder of a JSON string after the opening quote, undoing the
escaping of quote and backslash; returns the content and the rest of the
input past the closing quote. -/
def parseStringRest : List Char → Option (List Char × List Char)
  | [] => none
  | c :: rest =>
    if c = '"' then some ([], rest)
    else if c = '\\' then
      match rest with
      | [] => none
      | e :: rest2 =>
        match parseStringRest rest2 with
        | none => none
        | some (s, r) => some (e :: s, r)
    else
      match parseStringRest rest with
      | none => none
      | some (s, r) => some (c :: s, r)

/-- Longest digit span at the head of the input. -/
def spanDigits : List Char → List Char × List Char
  | [] => ([], [])
  | c :: cs =>
    if c.isDigit then
      let p := spanDigits cs
      (c :: p.1, p.2)
    else ([], c :: cs)

/-- Value of a big-endian digit string. -/
def digitsVal (ds : List Char) : Nat :=
  ds.foldl (fun a c => 10 * a + (c.toNat - 48)) 0

mutual

/-- Fuel-driven recursive-descent JSON parser (model of `JSON.parse`),
returning the parsed value and the unconsumed input. -/
def parseVal : Nat → List Char → Option (Json × List Char)
  | 0, _ => none
  | _ + 1, [] => none
  | fuel + 1, c :: s =>
    if c = 'n' then
      match dropLit ['u', 'l', 'l'] s with
      | none => none
      | some r => some (Json.null, r)
    else if c = 't' then
      match dropLit ['r', 'u', 'e'] s with
      | none => none
      | some r => some (Json.bool true, r)
    else if c = 'f' then
      match dropLit ['a', 'l', 's', 'e'] s with
      | none => none
      | some r => some (Json.bool false, r)
    else if c = '"' then
      match parseStringRest s with
      | none => none
      | some (t, r) => some (Json.str (String.mk t), r)
    else if c = '[' then
      match s with
      | [] => none
      | d :: s2 =>
        if d = ']' then some (Json.arr [], s2)
        else
          match parseElems fuel (d :: s2) with
          | none => none
          | some (vs, r) => some (Json.arr vs, r)
    else if c = '{' then
      match s with
      | [] => none
      | d :: s2 =>
        if d = '}' then some (Json.obj [], s2)
        else
          match parseFields fuel (d :: s2) with
          | none => none
          | some (fs, r) => some (Json.obj fs, r)
    else if c = '-' then
      let p := spanDigits s
      if p.1 = [] then none else some (Json.num (-(digitsVal p.1 : Int)), p.2)
    else if c.isDigit then
      let p := spanDigits (c :: s)
      some (Json.num (digitsVal p.1 : Int), p.2)
    else none

/-- Parse one or more comma-separated values terminated by a closing bracket. -/
def parseElems : Nat → List Char → Option (List Json × List Char)
  | 0, _ => none
  | fuel + 1, s =>
    match parseVal fuel s with
    | none => none
    | some (v, r) =>
      match r with
      | ',' :: r2 =>
        match parseElems fuel r2 with
        | none => none
        | some (vs, r3) => some (v :: vs, r3)
      | ']' :: r2 => some ([v], r2)
      | _ => none

/-- Parse one or more comma-separated key/value pairs terminated by a
closing brace. -/
def parseFields : Nat → List Char → Option (List (String × Json) × List Char)
  | 0, _ => none
  | fuel + 1, s =>
    match s with
    | '"' :: s2 =>
      match parseStringRest s2 with
      | none => none
      | some (k, r) =>
        match r with
        | ':' :: r2 =>
          match parseVal fuel r2 with
          | none => none
          | some (v, r3) =>
            match r3 with
            | ',' :: r4 =>
              match parseFields fuel r4 with
              | none => none
              | some (fs, r5) => some ((String.mk k, v) :: fs, r5)
            | '}' :: r4 => some ([(String.mk k, v)], r4)
            | _ => none
        | _ => none
    | _ => none

end

/-- Model of `JSON.parse`: parse a complete input, rejecting trailing
garbage (as `JSON.parse` does). -/
def Json.parse (s : List Char) : Option Json :=
  match parseVal (s.length + 1) s with
  | some (v, []) => some v
  | _ => none

/-- Property access on a parsed JSON object (`data.field`).  JavaScript
objects produced by `JSON.parse` have unique keys, so first-match lookup is
adequate for the fragment exercised here. -/
def lookupField : List (String × Json) → String → Option Json
  | [], _ => none
  | (k2, v) :: fs, k => if k2 = k then some v else lookupField fs k

/-- Property access `j.k`, `none` when absent or when `j` is not an object
(JavaScript would yield `undefined`). -/
def objGet (j : Json) (k : String) : Option Json :=
  match j with
  | .obj fs => lookupField fs k
  | _ => none

/-- Coerce a JSON field to a string when it is one. -/
def optStr : Option Json → Option String
  | some (.str s) => some s
  | _ => none

/-- Coerce a JSON field to an integer when it is one. -/
def optInt : Option Json → Option Int
  | some (.num n) => some n
  | _ => none

/-! ## Message envelope and MessageProtocol (message-protocol.ts) -/

/-- The `Message` class: `version`, `type`, `payload`, `id`.  The TypeScript
`type` is a string union; modelled as a plain string compared against the
`MessageType` constants. -/
structure Message where
  version : String
  type : String
  payload : Json
  id : String

instance : Inhabited Message := ⟨⟨"", "", Json.null, ""⟩⟩

/-- MessageProtocol.PROTOCOL_VERSION. -/
def PROTOCOL_VERSION : String := "1.0"

/-- The `Message` constructor: `this.id = id || uuidv4()`, i.e. a missing or
empty id argument is replaced by a freshly generated uuid (`fresh`). -/
def mkMessage (version type : String) (payload : Json) (idArg : Option String)
    (fresh : String) : Message :=
  ⟨version, type, payload,
    match idArg with
    | some i => if i = "" then fresh else i
    | none => fresh⟩

/-- Message.toJSON: `JSON.stringify({version, type, payload, id})` with the
object-literal key order. -/
def Message.toJSONChars (m : Message) : List Char :=
  stringifyVal (Json.obj
    [("version", .str m.version), ("type", .str m.type),
     ("payload", m.payload), ("id", .str m.id)])

/-- Message.fromJSON: `JSON.parse` then
`new Message(data.version, data.type, data.payload, data.id)`.  When the
parsed value lacks a string `version`/`type` or a `payload`, JavaScript
would build a `Message` holding `undefined` fields; that degenerate case is
modelled as a parse failure (no claim exercises it). -/
def Message.fromJSONChars (fresh : String) (s : List Char) : Option Message :=
  match Json.parse s with
  | none => none
  | some j =>
    match optStr (objGet j "version"), optStr (objGet j "type"), objGet j "payload" with
    | some v, some t, some p =>
      some (mkMessage v t p (optStr (objGet j "id")) fresh)
    | _, _, _ => none

/-- MessageProtocol.createChunk: the chunk envelope with payload fields in
the source's object-literal order; the chunk envelope itself draws a fresh
uuid id. -/
def createChunk (originalMessageId : String) (chunkIndex totalChunks : Nat)
    (chunkData : List Char) (originalType : String) (fresh : String) : Message :=
  mkMessage PROTOCOL_VERSION "chunk"
    (Json.obj
      [("originalMessageId", .str originalMessageId),
       ("chunkIndex", .num chunkIndex),
       ("totalChunks", .num totalChunks),
       ("chunkData", .str (String.mk chunkData)),
       ("originalType", .str originalType)])
    none fresh

/-- Positional split of the serialized text into slices of at most `size`
characters (`messageJson.substring(i, i + chunkSize)` with `i += chunkSize`).
The source's loop does not terminate for `size = 0`; that case is outside
the model (the claims assume a positive chunk size). -/
def chunksOfChars (size : Nat) : List Char → List (List Char)
  | [] => []
  | c :: cs => (c :: cs).take size :: chunksOfChars size (cs.drop (size - 1))
termination_by l => l.length
decreasing_by simp_wf <;> omega

/-- MessageProtocol.chunkMessage: serialize, slice, and wrap each slice in a
chunk envelope carrying the source id, the slice index and the slice count.
Each chunk envelope's own fresh uuid is supplied by `fresh`. -/
def chunkMessage (m : Message) (chunkSize : Nat) (fresh : Nat → String) : List Message :=
  let chunks := chunksOfChars chunkSize m.toJSONChars
  chunks.enum.map (fun p => createChunk m.id p.1 chunks.length p.2 m.type (fresh p.1))

/-- Accessor `chunk.payload.chunkIndex` (0 models the out-of-model value
`undefined`; every chunk built by the source carries the field). -/
def chunkIndexOf (m : Message) : Int := (optInt (objGet m.payload "chunkIndex")).getD 0

/-- Accessor `chunk.payload.totalChunks`. -/
def totalChunksOf (m : Message) : Int := (optInt (objGet m.payload "totalChunks")).getD 0

/-- Accessor `chunk.payload.originalMessageId`. -/
def originalMessageIdOf (m : Message) : String :=
  (optStr (objGet m.payload "originalMessageId")).getD ""

/-- Accessor `chunk.payload.chunkData`. -/
def chunkDataOf (m : Message) : String := (optStr (objGet m.payload "chunkData")).getD ""

/-- The comparator `(a, b) => a.payload.chunkIndex - b.payload.chunkIndex`
used by `chunks.sort`. -/
def chunkLE (a b : Message) : Prop := chunkIndexOf a ≤ chunkIndexOf b

instance : DecidableRel chunkLE := fun a b => inferInstanceAs (Decidable (chunkIndexOf a ≤ chunkIndexOf b))

instance : IsTotal Message chunkLE := ⟨fun _ _ => Int.le_total _ _⟩

instance : IsTrans Message chunkLE := ⟨fun _ _ _ => Int.le_trans⟩

/-- Strict index order on chunk envelopes. -/
def chunkLT (a b : Message) : Prop := chunkIndexOf a < chunkIndexOf b

instance : IsAntisymm Message chunkLT :=
  ⟨fun _ _ h h2 => absurd h2 (Int.not_lt.mpr (Int.le_of_lt h))⟩

/-- MessageProtocol.reassembleChunks: sort by `chunkIndex` (JavaScript's
in-place comparator sort, modelled by insertion sort), require exactly
`totalChunks` chunks all carrying the same `originalMessageId`, concatenate
the `chunkData` slices in index order and re-parse.  `fresh` feeds the
`Message` constructor invoked by `Message.fromJSON`. -/
def reassembleChunks (fresh : String) (chunks : List Message) : Option Message :=
  match chunks with
  | [] => none
  | _ :: _ =>
    let sorted := List.insertionSort chunkLE chunks
    let totalChunks := totalChunksOf sorted.headI
    if (sorted.length : Int) ≠ totalChunks then none
    else
      let originalMessageId := originalMessageIdOf sorted.headI
      if ¬ sorted.all (fun c => originalMessageIdOf c = originalMessageId) then none
      else Message.fromJSONChars fresh ((sorted.map (fun c => (chunkDataOf c).data)).flatten)

/-! ## Chunking configuration (audio-config.ts) -/

/-- The `chunking` block of `AudioConfig`. -/
structure ChunkingConfig where
  maxMessageSize : Nat
  chunkSize : Nat
  enabled : Bool

/-- DEFAULT_AUDIO_CONFIG.chunking. -/
def DEFAULT_CHUNKING : ChunkingConfig := ⟨8192, 2048, true⟩

/-- EIP_AUDIO_CONFIG.chunking. -/
def EIP_CHUNKING : ChunkingConfig := ⟨4096, 1024, true⟩

/-- shouldChunkMessage:
`config.chunking.enabled && messageLength > config.chunking.maxMessageSize`. -/
def shouldChunkMessage (messageLength : Nat) (config : ChunkingConfig) : Bool :=
  config.enabled && decide (config.maxMessageSize < messageLength)

/-! ## AudioProtocol receive path (audio-protocol.ts) -/

/-- The mutable fields of `AudioProtocol` the receive path touches:
`isListening`, `isTransmitting` and the `chunkStorage` map (modelled as an
insertion-ordered association list, like a JavaScript `Map`). -/
structure APState where
  isListening : Bool
  isTransmitting : Bool
  chunkStorage : List (String × List Message)

/-- Map.get. -/
def storeLookup (store : List (String × List Message)) (k : String) : Option (List Message) :=
  match store with
  | [] => none
  | (k2, v) :: rest => if k2 = k then some v else storeLookup rest k

/-- Map.set (replace in place, insert at the end when absent). -/
def storeSet (store : List (String × List Message)) (k : String) (v : List Message) :
    List (String × List Message) :=
  match store with
  | [] => [(k, v)]
  | (k2, v2) :: rest => if k2 = k then (k, v) :: rest else (k2, v2) :: storeSet rest k v

/-- Map.delete. -/
def storeErase (store : List (String × List Message)) (k : String) :
    List (String × List Message) :=
  match store with
  | [] => []
  | (k2, v2) :: rest => if k2 = k then rest else (k2, v2) :: storeErase rest k

/-- AudioProtocol.handleChunk: append the chunk to the buffer for its
`originalMessageId` (a plain array push — duplicates are appended, the
buffer is not keyed by `chunkIndex`), and when the buffer length reaches
this chunk's `totalChunks`, attempt reassembly; on success emit the
reassembled message, in either case delete the buffer.  The returned list
holds the `'message'` events emitted. -/
def AP_handleChunk (fresh : String) (st : APState) (chunk : Message) :
    APState × List Message :=
  let oid := originalMessageIdOf chunk
  let prev := (storeLookup st.chunkStorage oid).getD []
  let chunks := prev ++ [chunk]
  if (chunks.length : Int) = totalChunksOf chunk then
    match reassembleChunks fresh chunks with
    | some m => ({ st with chunkStorage := storeErase (storeSet st.chunkStorage oid chunks) oid }, [m])
    | none => ({ st with chunkStorage := storeErase (storeSet st.chunkStorage oid chunks) oid }, [])
  else ({ st with chunkStorage := storeSet st.chunkStorage oid chunks }, [])

/-- AudioProtocol.handleReceivedMessage: route chunks to the reassembler,
emit every other message unconditionally. -/
def AP_handleReceivedMessage (fresh : String) (st : APState) (m : Message) :
    APState × List Message :=
  if m.type = "chunk" then AP_handleChunk fresh st m else (st, [m])

/-- The decode branch of the `onaudioprocess` handler: parse the decoded
text as a `Message` and hand it to `handleReceivedMessage`; parse failures
are dropped.  Note that the handler consults neither `isListening` nor
`isTransmitting`. -/
def AP_processDecodedText (fresh : String) (st : APState) (text : List Char) :
    APState × List Message :=
  match Message.fromJSONChars fresh text with
  | some m => AP_handleReceivedMessage fresh st m
  | none => (st, [])

/-- Deliver a sequence of already-decoded messages through
`handleReceivedMessage`, collecting all emitted `'message'` events. -/
def AP_run (fresh : String) (st : APState) : List Message → APState × List Message
  | [] => (st, [])
  | m :: rest =>
    let r := AP_handleReceivedMessage fresh st m
    let r2 := AP_run fresh r.1 rest
    (r2.1, r.2 ++ r2.2)

/-- Outcome of `AudioProtocol.sendMessage`: a single transmission or a
chunked one. -/
inductive APSendPlan where
  | single (m : Message)
  | chunked (chunks : List Message)

/-- AudioProtocol.sendMessage: chunk exactly when
`shouldChunkMessage(messageText.length, config)`, using
`config.chunking.chunkSize` slices. -/
def sendMessagePlan (config : ChunkingConfig) (m : Message) (fresh : Nat → String) :
    APSendPlan :=
  if shouldChunkMessage m.toJSONChars.length config then
    .chunked (chunkMessage m config.chunkSize fresh)
  else .single m

/-! ## waitForMessage (audio-protocol.ts / eip-audio-protocol variant) -/

/-- State of one registered expectation: the resolution slot of its promise,
whether the message handler is still attached (`off` removes it) and whether
the deadline timer is still scheduled (`clearTimeout` cancels it, firing
consumes it). -/
structure WaitState where
  resolved : Option (Option Message)
  handlerOn : Bool
  timerOn : Bool

/-- Events that can reach a pending expectation: an inbound decoded message
delivered to the `'message'` listeners, or the deadline timer firing. -/
inductive WaitEvent where
  | deliver (m : Message)
  | timerFire

/-- The state right after `waitForMessage` registers the handler and starts
the timer. -/
def waitInit : WaitState := ⟨none, true, true⟩

/-- One event against `waitForMessage`'s closure: a delivered message of the
expected type (while the handler is attached) clears the timer, removes the
handler and resolves with the message; the timer firing (while scheduled)
removes the handler and resolves with `null`.  A detached handler receives
nothing and a cancelled or consumed timer never fires. -/
def waitStep (expectedType : String) (st : WaitState) : WaitEvent → WaitState
  | .deliver m =>
    if st.handlerOn = true ∧ m.type = expectedType then ⟨some (some m), false, false⟩ else st
  | .timerFire =>
    if st.timerOn = true then ⟨some none, false, false⟩ else st

/-- Run a sequence of events against one registered expectation. -/
def waitRun (expectedType : String) (st : WaitState) : List WaitEvent → WaitState
  | [] => st
  | e :: es => waitRun expectedType (waitStep expectedType st e) es

/-- Modelled from the spec: the unique resolution the claim predicts — the
first event that is either a delivery of the expected type (resolving with
that message) or the timer firing (resolving with `null`); `none` when the
event sequence contains neither. -/
def firstResolution (expectedType : String) : List WaitEvent → Option (Option Message)
  | [] => none
  | .deliver m :: es =>
    if m.type = expectedType then some (some m) else firstResolution expectedType es
  | .timerFire :: _ => some none

/-! ## EIP stack: eip-config.ts and the chunk-capable EIPAudioProtocol -/

/-- The `EIPMessage` interface: like `Message` but with an optional `id`. -/
structure EIPMessage where
  version : String
  type : String
  payload : Json
  id : Option String

instance : Inhabited EIPMessage := ⟨⟨"", "", Json.null, none⟩⟩

/-- EIP_PROTOCOL_VERSION. -/
def EIP_PROTOCOL_VERSION : String := "1.0"

/-- isVersionSupported: only "1.0". -/
def isVersionSupported (version : String) : Bool := version = EIP_PROTOCOL_VERSION

/-- The three shapes the `id?: string | null` argument of `createEIPMessage`
can take in JavaScript. -/
inductive IdArg where
  | undef
  | null
  | str (s : String)

/-- createEIPMessage: the id field is set only when
`id !== null && (id || type !== 'connect')`, and then to
`id || translator.new()` (so a missing or empty id argument draws `fresh`,
and an id-less `connect` carries no id field at all). -/
def createEIPMessage (type : String) (payload : Json) (idArg : IdArg) (fresh : String) :
    EIPMessage :=
  ⟨EIP_PROTOCOL_VERSION, type, payload,
    match idArg with
    | .null => none
    | .undef => if type = "connect" then none else some fresh
    | .str s => if s = "" then (if type = "connect" then none else some fresh) else some s⟩

/-- The closed list of EIP message types accepted by `validateEIPMessage`. -/
def eipTypes : List String :=
  ["connect", "connect_response", "tx_request", "tx_response", "ack", "error", "chunk"]

/-- JavaScript `typeof x === 'object'` on a JSON value (objects, arrays and
`null` all satisfy it). -/
def typeofIsObject : Json → Bool
  | .obj _ => true
  | .arr _ => true
  | .null => true
  | _ => false

/-- validateEIPMessage on a parsed JSON value: `version` and `type` are
strings, `type` is in the closed list, `payload` has `typeof 'object'`, and
`id` is absent or a string.  (Property access on the parsed value `null`
would throw in JavaScript inside the caller's catch; no claim exercises
that corner.) -/
def validateEIPMessage (j : Json) : Bool :=
  typeofIsObject j &&
  (match optStr (objGet j "version") with | some _ => true | none => false) &&
  (match optStr (objGet j "type") with | some t => eipTypes.contains t | none => false) &&
  (match objGet j "payload" with | some p => typeofIsObject p | none => false) &&
  (match objGet j "id" with
   | none => true
   | some (.str _) => true
   | some _ => false)

/-- JSON.stringify of an `EIPMessage` (object-literal key order; an `id`
that is `undefined` is omitted by `JSON.stringify`). -/
def eipToJson (m : EIPMessage) : Json :=
  Json.obj
    ([("version", .str m.version), ("type", .str m.type), ("payload", m.payload)] ++
      match m.id with
      | some i => [("id", .str i)]
      | none => [])

/-- Serialized wire text of an `EIPMessage`. -/
def eipToJSONChars (m : EIPMessage) : List Char := stringifyVal (eipToJson m)

/-- The unchecked cast `JSON.parse(...) as EIPMessage` used on reassembled
chunk data: fields are read off the parsed object as-is, with no
validation whatsoever (absent fields, `undefined` in JavaScript, are
modelled by the neutral defaults). -/
def eipFromJson (j : Json) : EIPMessage :=
  ⟨(optStr (objGet j "version")).getD "",
   (optStr (objGet j "type")).getD "",
   (objGet j "payload").getD Json.null,
   optStr (objGet j "id")⟩

/-- Accessor `chunk.payload.chunkIndex` for EIP chunk envelopes. -/
def chunkIndexOfE (m : EIPMessage) : Int := (optInt (objGet m.payload "chunkIndex")).getD 0

/-- Accessor `chunk.payload.totalChunks` for EIP chunk envelopes. -/
def totalChunksOfE (m : EIPMessage) : Int := (optInt (objGet m.payload "totalChunks")).getD 0

/-- Accessor `chunk.payload.originalMessageId` for EIP chunk envelopes. -/
def originalMessageIdOfE (m : EIPMessage) : String :=
  (optStr (objGet m.payload "originalMessageId")).getD ""

/-- Accessor `chunk.payload.chunkData` for EIP chunk envelopes. -/
def chunkDataOfE (m : EIPMessage) : String := (optStr (objGet m.payload "chunkData")).getD ""

/-- The sort comparator of `EIPAudioProtocol.handleChunk`. -/
def eipChunkLE (a b : EIPMessage) : Prop := chunkIndexOfE a ≤ chunkIndexOfE b

instance : DecidableRel eipChunkLE :=
  fun a b => inferInstanceAs (Decidable (chunkIndexOfE a ≤ chunkIndexOfE b))

/-- The state of `EIPAudioProtocol` the chunk receive path touches: the
`chunkStorage` map from `originalMessageId` to the chunks seen so far. -/
structure EIPState where
  chunkStorage : List (String × List EIPMessage)

/-- Map.get for the EIP chunk storage. -/
def estoreLookup (store : List (String × List EIPMessage)) (k : String) :
    Option (List EIPMessage) :=
  match store with
  | [] => none
  | (k2, v) :: rest => if k2 = k then some v else estoreLookup rest k

/-- Map.set for the EIP chunk storage. -/
def estoreSet (store : List (String × List EIPMessage)) (k : String) (v : List EIPMessage) :
    List (String × List EIPMessage) :=
  match store with
  | [] => [(k, v)]
  | (k2, v2) :: rest => if k2 = k then (k, v) :: rest else (k2, v2) :: estoreSet rest k v

/-- Map.delete for the EIP chunk storage. -/
def estoreErase (store : List (String × List EIPMessage)) (k : String) :
    List (String × List EIPMessage) :=
  match store with
  | [] => []
  | (k2, v2) :: rest => if k2 = k then rest else (k2, v2) :: estoreErase rest k

/-- The buffer held for an `originalMessageId` (empty when absent). -/
def eipPendingFor (st : EIPState) (oid : String) : List EIPMessage :=
  (estoreLookup st.chunkStorage oid).getD []

/-- The concatenation `chunks.sort(byIndex).map(chunkData).join('')` that
`EIPAudioProtocol.handleChunk` re-parses once the buffer is full. -/
def eipJoinedData (chunks : List EIPMessage) : List Char :=
  ((List.insertionSort eipChunkLE chunks).map (fun c => (chunkDataOfE c).data)).flatten

/-- EIPAudioProtocol.handleChunk: push the chunk onto the buffer for its
`originalMessageId` (duplicates are appended); when the buffer length
reaches this chunk's `totalChunks`, sort by index, join the data and
`JSON.parse` it; on success delete the buffer and emit the parsed value
cast to `EIPMessage` (no validation, no version check), on parse failure
just delete the buffer. -/
def EIP_handleChunk (st : EIPState) (chunk : EIPMessage) : EIPState × List EIPMessage :=
  let oid := originalMessageIdOfE chunk
  let chunks := eipPendingFor st oid ++ [chunk]
  if (chunks.length : Int) = totalChunksOfE chunk then
    match Json.parse (eipJoinedData chunks) with
    | some j => (⟨estoreErase (estoreSet st.chunkStorage oid chunks) oid⟩, [eipFromJson j])
    | none => (⟨estoreErase (estoreSet st.chunkStorage oid chunks) oid⟩, [])
  else (⟨estoreSet st.chunkStorage oid chunks⟩, [])

/-- The three observable effects of `EIPAudioProtocol.handleEIPMessage`:
outbound `sendEIPMessage` calls, `'eip-message'` emissions, and
`'version-mismatch'` events. -/
structure EIPOutput where
  sent : List EIPMessage
  emitted : List EIPMessage
  versionMismatches : List (String × String)

/-- Concatenate two effect records. -/
def EIPOutput.append (a b : EIPOutput) : EIPOutput :=
  ⟨a.sent ++ b.sent, a.emitted ++ b.emitted, a.versionMismatches ++ b.versionMismatches⟩

/-- EIPAudioProtocol.handleEIPMessage: first the version policy (on an
unsupported version, emit `'version-mismatch'`, send an error envelope
whose payload carries the explanatory text and the original id, and stop);
then route `chunk` envelopes to `handleChunk`; every other envelope is
emitted to the `'eip-message'` listeners.  `fresh` is the id drawn by
`createEIPMessage` for the error envelope. -/
def EIP_handleEIPMessage (fresh : String) (st : EIPState) (m : EIPMessage) :
    EIPState × EIPOutput :=
  if isVersionSupported m.version then
    if m.type = "chunk" then
      let r := EIP_handleChunk st m
      (r.1, ⟨[], r.2, []⟩)
    else (st, ⟨[], [m], []⟩)
  else
    (st,
      ⟨[createEIPMessage "error"
          (Json.obj
            ([("message", .str ("Unsupported protocol version: " ++ m.version))] ++
              match m.id with
              | some i => [("received_id", .str i)]
              | none => []))
          IdArg.undef fresh],
        [], [(m.version, EIP_PROTOCOL_VERSION)]⟩)

/-- Deliver a sequence of decoded EIP messages through
`handleEIPMessage`, accumulating all observable effects. -/
def EIP_run (fresh : String) (st : EIPState) : List EIPMessage → EIPState × EIPOutput
  | [] => (st, ⟨[], [], []⟩)
  | m :: rest =>
    let r := EIP_handleEIPMessage fresh st m
    let r2 := EIP_run fresh r.1 rest
    (r2.1, r.2.append r2.2)

/-- The chunkingThreshold of `EIPAudioProtocol.sendEIPMessage`
(`messageText.length > 120`). -/
def eipChunkingThreshold : Nat := 120

/-- The chunk slice size of `sendChunkedEIPMessage` (`chunkSize = 80`). -/
def eipChunkSize : Nat := 80

/-- The chunk envelopes built by `sendChunkedEIPMessage`: slices of the
serialized text wrapped in envelopes that reuse the original message's
`version`, reference its id and type, and draw fresh short-uuid ids of
their own.  An `undefined` `originalMessageId` (id-less original) is
omitted on the wire by `JSON.stringify`. -/
def eipChunkMessages (m : EIPMessage) (fresh : Nat → String) : List EIPMessage :=
  let pieces := chunksOfChars eipChunkSize (eipToJSONChars m)
  pieces.enum.map (fun p =>
    ⟨m.version, "chunk",
      Json.obj
        ((match m.id with
          | some i => [("originalMessageId", Json.str i)]
          | none => []) ++
          [("originalType", .str m.type), ("chunkIndex", .num p.1),
           ("totalChunks", .num pieces.length), ("chunkData", .str (String.mk p.2))]),
      some (fresh p.1)⟩)

/-- Outcome of `sendEIPMessage`: one single transmission, or the chunk
sequence of `sendChunkedEIPMessage`. -/
inductive EIPSendPlan where
  | single (text : List Char)
  | chunked (chunks : List EIPMessage)

/-- EIPAudioProtocol.sendEIPMessage: chunk exactly when the serialized text
exceeds 120 characters, else transmit the text as one message. -/
def sendEIPMessagePlan (m : EIPMessage) (fresh : Nat → String) : EIPSendPlan :=
  let text := eipToJSONChars m
  if eipChunkingThreshold < text.length then .chunked (eipChunkMessages m fresh)
  else .single text

/-- EIPMessageHandler.handleConnectRequest: reply to a `connect` with a
`connect_response` whose payload carries the wallet address and the
original message's id as `received_id` (omitted on the wire when the
`connect` had no id). -/
def handleConnectRequest (walletAddress : String) (m : EIPMessage) (fresh : String) :
    EIPMessage :=
  createEIPMessage "connect_response"
    (Json.obj
      ([("address", .str walletAddress)] ++
        match m.id with
        | some i => [("received_id", .str i)]
        | none => []))
    IdArg.undef fresh

/-! ## Auxiliary measures and predicates used by the correctness proofs -/

/-- True when the input does not continue a decimal literal (used to state
where a serialized number may be followed by arbitrary text). -/
def nonDigitStart : List Char → Bool
  | [] => true
  | c :: _ => !c.isDigit

mutual

/-- Parser fuel needed for a JSON value. -/
def sizeB : Json → Nat
  | .null => 1
  | .bool _ => 1
  | .num _ => 1
  | .str _ => 1
  | .arr vs => 1 + sizeL vs
  | .obj fs => 1 + sizeF fs
termination_by j => sizeOf j
decreasing_by all_goals (simp_wf <;> omega)

/-- Parser fuel needed for an array element list. -/
def sizeL : List Json → Nat
  | [] => 1
  | v :: vs => 1 + max (sizeB v) (sizeL vs)
termination_by vs => sizeOf vs
decreasing_by all_goals (simp_wf <;> omega)

/-- Parser fuel needed for an object field list. -/
def sizeF : List (String × Json) → Nat
  | [] => 1
  | (_, v) :: fs => 1 + max (sizeB v) (sizeF fs)
termination_by fs => sizeOf fs
decreasing_by all_goals (simp_wf <;> omega)

end

/-! ## Concrete scenario values used by witnesses and counterexamples -/

/-- A transaction request whose serialized form fits in two 43-character
slices. -/
def e2 : Message := ⟨"1.0", "tx_request", Json.obj [("transaction", Json.str "0xdeadbeef")], "m1"⟩

/-- The serialized form of `e2`, written out as wire text. -/
def e2json : List Char :=
  "\x7b\"version\":\"1.0\",\"type\":\"tx_request\",\"payload\":\x7b\"transaction\":\"0xdeadbeef\"\x7d,\"id\":\"m1\"\x7d".toList

/-- First chunk envelope of `e2` at slice size 43. -/
def c2chunkA : Message := createChunk "m1" 0 2 (e2json.take 43) "tx_request" "ka"

/-- Second chunk envelope of `e2` at slice size 43. -/
def c2chunkB : Message := createChunk "m1" 1 2 (e2json.drop 43) "tx_request" "kb"

/-- A listening, non-transmitting protocol instance with empty storage. -/
def apStart : APState := ⟨true, false, []⟩

/-- A chunk envelope announcing three total chunks, used to exhibit
duplicate-delivery behaviour without triggering completion. -/
def c2triple : Message := createChunk "m5" 0 3 "AA".toList "tx_request" "kc"

/-- A protocol instance already holding `c2triple` in its buffer. -/
def apDupState : APState := ⟨true, false, [("m5", [c2triple])]⟩

/-- A protocol instance that is listening while a transmission is in
flight (the state `sendSingleMessage` puts a listening instance into). -/
def c5state : APState := ⟨true, true, []⟩

/-- Wire text of a `connect_response`, as decoded from inbound audio. -/
def c5text : List Char :=
  "\x7b\"version\":\"1.0\",\"type\":\"connect_response\",\"payload\":\x7b\"address\":\"0xabc\"\x7d,\"id\":\"w1\"\x7d".toList

/-- The message carried by `c5text`. -/
def c5msg : Message := ⟨"1.0", "connect_response", Json.obj [("address", Json.str "0xabc")], "w1"⟩

/-- Fresh empty EIP chunk storage. -/
def eipStart : EIPState := ⟨[]⟩

/-- A connect_response claiming the unsupported protocol version 9.9. -/
def c7target : EIPMessage :=
  ⟨"9.9", "connect_response", Json.obj [("address", Json.str "0xabc")], some "t1"⟩

/-- The serialized form of `c7target`. -/
def c7json : List Char :=
  "\x7b\"version\":\"9.9\",\"type\":\"connect_response\",\"payload\":\x7b\"address\":\"0xabc\"\x7d,\"id\":\"t1\"\x7d".toList

/-- First chunk envelope (version 1.0) carrying half of `c7target`. -/
def c7chunkA : EIPMessage :=
  ⟨"1.0", "chunk",
    Json.obj
      [("originalMessageId", Json.str "t1"), ("originalType", Json.str "connect_response"),
       ("chunkIndex", Json.num 0), ("totalChunks", Json.num 2),
       ("chunkData", Json.str (String.mk (c7json.take 43)))], some "ka"⟩

/-- Second chunk envelope (version 1.0) carrying the rest of `c7target`. -/
def c7chunkB : EIPMessage :=
  ⟨"1.0", "chunk",
    Json.obj
      [("originalMessageId", Json.str "t1"), ("originalType", Json.str "connect_response"),
       ("chunkIndex", Json.num 1), ("totalChunks", Json.num 2),
       ("chunkData", Json.str (String.mk (c7json.drop 43)))], some "kb"⟩

/-- Chunk 0 of a three-chunk message of which chunk 1 never arrives. -/
def c3chunk0 : EIPMessage :=
  ⟨"1.0", "chunk",
    Json.obj
      [("originalMessageId", Json.str "m9"), ("originalType", Json.str "tx_request"),
       ("chunkIndex", Json.num 0), ("totalChunks", Json.num 3),
       ("chunkData", Json.str "AAA")], some "k0"⟩

/-- Chunk 2 of the same three-chunk message. -/
def c3chunk2 : EIPMessage :=
  ⟨"1.0", "chunk",
    Json.obj
      [("originalMessageId", Json.str "m9"), ("originalType", Json.str "tx_request"),
       ("chunkIndex", Json.num 2), ("totalChunks", Json.num 3),
       ("chunkData", Json.str "CCC")], some "k2"⟩

/-- The JSON value carried by `c7json`. -/
def c7parsed : Json :=
  Json.obj
    [("version", Json.str "9.9"), ("type", Json.str "connect_response"),
     ("payload", Json.obj [("address", Json.str "0xabc")]), ("id", Json.str "t1")]

/-- A connect message carrying the unsupported version 2.0. -/
def c4msg : EIPMessage := ⟨"2.0", "connect", Json.obj [], some "c1"⟩

/-- An id-less connect, as built by `createEIPMessage('connect', {})`. -/
def c10connect : EIPMessage := ⟨"1.0", "connect", Json.obj [], none⟩

/-- A message long enough that `sendMessage` must chunk it: its payload is
8300 characters, its serialized form 8360 characters. -/
def e1big : Message :=
  ⟨"1.0", "tx_request", Json.str (String.mk (List.replicate 8300 'a')), "m1"⟩

/-- An EIP message whose serialized form (176 characters) exceeds the
120-character chunking threshold. -/
def e8big : EIPMessage :=
  ⟨"1.0", "tx_request", Json.obj [("transaction", Json.str (String.mk (List.replicate 100 'a')))],
    some "m7"⟩

/-- The id-less connect built by `createEIPMessage`, 47 characters on the
wire, below the chunking threshold. -/
def e8small : EIPMessage := createEIPMessage "connect" (Json.obj []) IdArg.undef "f"

/-! ## Correctness of the JSON codec model -/

theorem digitChar_isDigit {d : Nat} (h : d < 10) : (digitChar d).isDigit = true := by
  interval_cases d <;> decide

theorem digitChar_toNat {d : Nat} (h : d < 10) : (digitChar d).toNat = 48 + d := by
  interval_cases d <;> decide

theorem isDigit_ne_n {c : Char} (h : c.isDigit = true) : c ≠ 'n' := by
  rintro rfl; exact absurd h (by decide)

theorem isDigit_ne_t {c : Char} (h : c.isDigit = true) : c ≠ 't' := by
  rintro rfl; exact absurd h (by decide)

theorem isDigit_ne_f {c : Char} (h : c.isDigit = true) : c ≠ 'f' := by
  rintro rfl; exact absurd h (by decide)

theorem isDigit_ne_quote {c : Char} (h : c.isDigit = true) : c ≠ '"' := by
  rintro rfl; exact absurd h (by decide)

theorem isDigit_ne_lsqb {c : Char} (h : c.isDigit = true) : c ≠ '[' := by
  rintro rfl; exact absurd h (by decide)

theorem isDigit_ne_rsqb {c : Char} (h : c.isDigit = true) : c ≠ ']' := by
  rintro rfl; exact absurd h (by decide)

theorem isDigit_ne_lcub {c : Char} (h : c.isDigit = true) : c ≠ '{' := by
  rintro rfl; exact absurd h (by decide)

theorem isDigit_ne_minus {c : Char} (h : c.isDigit = true) : c ≠ '-' := by
  rintro rfl; exact absurd h (by decide)

theorem natCharsAux_congr : ∀ fuel1 fuel2 n, n < fuel1 → n < fuel2 →
    natCharsAux fuel1 n = natCharsAux fuel2 n := by
  intro fuel1
  induction fuel1 with
  | zero => omega
  | succ f ih =>
    intro fuel2 n h1 h2
    cases fuel2 with
    | zero => omega
    | succ g =>
      simp only [natCharsAux]
      by_cases hn : n < 10
      · simp [hn]
      · have hd : n / 10 < n := Nat.div_lt_self (by omega) (by omega)
        simp only [hn, if_false]
        rw [ih g (n / 10) (by omega) (by omega)]

theorem natChars_eq (n : Nat) :
    natChars n = if n < 10 then [digitChar n] else natChars (n / 10) ++ [digitChar (n % 10)] := by
  by_cases hn : n < 10
  · simp [natChars, natCharsAux, hn]
  · have hd : n / 10 < n := Nat.div_lt_self (by omega) (by omega)
    have h1 : natChars n = natCharsAux n (n / 10) ++ [digitChar (n % 10)] := by
      simp only [natChars, natCharsAux, hn, if_false]
    rw [h1, if_neg hn, natChars,
      natCharsAux_congr n (n / 10 + 1) (n / 10) (by omega) (by omega)]

theorem natChars_ne_nil (n : Nat) : natChars n ≠ [] := by
  rw [natChars_eq]
  by_cases hn : n < 10 <;> simp [hn]

theorem natChars_digits (n : Nat) : ∀ c ∈ natChars n, c.isDigit = true := by
  induction n using Nat.strong_induction_on with
  | _ n ih =>
    rw [natChars_eq]
    by_cases hn : n < 10
    · simp only [hn, if_true, List.mem_singleton]
      rintro c rfl
      exact digitChar_isDigit hn
    · have hd : n / 10 < n := Nat.div_lt_self (by omega) (by omega)
      simp only [hn, if_false, List.mem_append, List.mem_singleton]
      rintro c (hc | rfl)
      · exact ih _ hd c hc
      · exact digitChar_isDigit (Nat.mod_lt _ (by omega))

theorem digitsVal_append_single (ds : List Char) (c : Char) :
    digitsVal (ds ++ [c]) = 10 * digitsVal ds + (c.toNat - 48) := by
  simp [digitsVal, List.foldl_append]

theorem digitsVal_natChars (n : Nat) : digitsVal (natChars n) = n := by
  induction n using Nat.strong_induction_on with
  | _ n ih =>
    rw [natChars_eq]
    by_cases hn : n < 10
    · simp only [hn, if_true]
      simp [digitsVal, digitChar_toNat hn]
    · have hd : n / 10 < n := Nat.div_lt_self (by omega) (by omega)
      simp only [hn, if_false]
      rw [digitsVal_append_single, ih _ hd, digitChar_toNat (Nat.mod_lt _ (by omega))]
      omega

theorem spanDigits_append {ds rest : List Char} (hds : ∀ c ∈ ds, c.isDigit = true)
    (hrest : nonDigitStart rest = true) : spanDigits (ds ++ rest) = (ds, rest) := by
  induction ds with
  | nil =>
    cases rest with
    | nil => rfl
    | cons c cs =>
      simp only [nonDigitStart, Bool.not_eq_true'] at hrest
      simp [spanDigits, hrest]
  | cons d ds ih =>
    have hd : d.isDigit = true := hds d (by simp)
    have ih2 := ih (fun c hc => hds c (by simp [hc]))
    simp only [List.cons_append, spanDigits, hd, if_true, List.append_eq, ih2]

theorem dropLit_self : ∀ (p s : List Char), dropLit p (p ++ s) = some s := by
  intro p
  induction p with
  | nil => intro s; rfl
  | cons c p ih => intro s; simp [dropLit, ih]

theorem parseStringRest_escape : ∀ (s rest : List Char),
    parseStringRest (escapeChars s ++ '"' :: rest) = some (s, rest) := by
  intro s
  induction s with
  | nil => intro rest; simp [escapeChars, parseStringRest.eq_def]
  | cons c cs ih =>
    intro rest
    by_cases hq : c = '"'
    · subst hq
      simp only [escapeChars, escapeChar, if_pos rfl, List.cons_append, List.append_assoc,
        List.nil_append]
      rw [parseStringRest.eq_def]
      simp [ih]
    · by_cases hb : c = '\\'
      · subst hb
        simp only [escapeChars, escapeChar, if_neg (by decide : ¬('\\' : Char) = '"'),
          if_pos rfl, List.cons_append, List.append_assoc, List.nil_append]
        rw [parseStringRest.eq_def]
        simp [ih]
      · simp only [escapeChars, escapeChar, if_neg hq, if_neg hb, List.cons_append,
          List.nil_append]
        rw [parseStringRest.eq_def]
        simp [hq, hb, ih]

theorem string_mk_data (s : String) : String.mk s.data = s := rfl

theorem sizeB_pos (v : Json) : 1 ≤ sizeB v := by
  cases v <;> simp [sizeB]

theorem sizeL_pos (vs : List Json) : 1 ≤ sizeL vs := by
  cases vs <;> simp [sizeL]

theorem sizeF_pos (fs : List (String × Json)) : 1 ≤ sizeF fs := by
  rcases fs with _ | ⟨⟨k, v⟩, fs⟩ <;> simp [sizeF]

theorem natChars_cons (n : Nat) :
    ∃ d ds, natChars n = d :: ds ∧ d.isDigit = true := by
  cases h : natChars n with
  | nil => exact absurd h (natChars_ne_nil n)
  | cons d ds =>
    refine ⟨d, ds, rfl, natChars_digits n d ?_⟩
    rw [h]; simp

theorem stringify_head (v : Json) : ∃ c cs, stringifyVal v = c :: cs ∧ c ≠ ']' := by
  cases v with
  | null => exact ⟨'n', ['u', 'l', 'l'], by simp [stringifyVal], by decide⟩
  | bool b =>
    cases b with
    | true => exact ⟨'t', ['r', 'u', 'e'], by simp [stringifyVal], by decide⟩
    | false => exact ⟨'f', ['a', 'l', 's', 'e'], by simp [stringifyVal], by decide⟩
  | num n =>
    by_cases hneg : n < 0
    · exact ⟨'-', natChars n.natAbs, by simp [stringifyVal, hneg], by decide⟩
    · obtain ⟨d, ds, hnat, hd⟩ := natChars_cons n.toNat
      exact ⟨d, ds, by simp [stringifyVal, hneg, hnat], isDigit_ne_rsqb hd⟩
  | str s =>
    exact ⟨'"', escapeChars s.data ++ ['"'], by simp [stringifyVal], by decide⟩
  | arr vs =>
    cases vs with
    | nil => exact ⟨'[', [']'], by simp [stringifyVal], by decide⟩
    | cons v vs =>
      exact ⟨'[', stringifyElems v vs ++ [']'], by simp [stringifyVal], by decide⟩
  | obj fs =>
    rcases fs with _ | ⟨⟨k, v⟩, fs⟩
    · exact ⟨'{', ['}'], by simp [stringifyVal], by decide⟩
    · exact ⟨'{', stringifyFields k v fs ++ ['}'], by simp [stringifyVal], by decide⟩

theorem stringifyElems_cons_head (v : Json) (vs : List Json) :
    ∃ c t, stringifyElems v vs = c :: t ∧ c ≠ ']' := by
  obtain ⟨c, cs, hsv, hc⟩ := stringify_head v
  cases vs with
  | nil => exact ⟨c, cs, by simp [stringifyElems, hsv], hc⟩
  | cons w ws =>
    exact ⟨c, cs ++ ',' :: stringifyElems w ws, by simp [stringifyElems, hsv], hc⟩

theorem stringifyFields_head (k : String) (v : Json) (fs : List (String × Json)) :
    ∃ t, stringifyFields k v fs = '"' :: t := by
  rcases fs with _ | ⟨⟨k2, v2⟩, fs⟩
  · exact ⟨escapeChars k.data ++ '"' :: ':' :: stringifyVal v, by simp [stringifyFields]⟩
  · exact ⟨escapeChars k.data ++ '"' :: ':' :: (stringifyVal v ++ ',' :: stringifyFields k2 v2 fs),
      by simp [stringifyFields]⟩

theorem parse_spec : ∀ fuel : Nat,
    (∀ v rest, sizeB v ≤ fuel → nonDigitStart rest = true →
      parseVal fuel (stringifyVal v ++ rest) = some (v, rest)) ∧
    (∀ v vs rest, sizeL (v :: vs) ≤ fuel →
      parseElems fuel (stringifyElems v vs ++ ']' :: rest) = some (v :: vs, rest)) ∧
    (∀ k v fs rest, sizeF ((k, v) :: fs) ≤ fuel →
      parseFields fuel (stringifyFields k v fs ++ '}' :: rest) = some ((k, v) :: fs, rest)) := by
  intro fuel
  induction fuel with
  | zero =>
    refine ⟨fun v rest hsz _ => ?_, fun v vs rest hsz => ?_, fun k v fs rest hsz => ?_⟩
    · exact absurd hsz (by have := sizeB_pos v; omega)
    · exact absurd hsz (by have := sizeL_pos (v :: vs); omega)
    · exact absurd hsz (by have := sizeF_pos ((k, v) :: fs); omega)
  | succ fuel ih =>
    obtain ⟨ihP, ihE, ihF⟩ := ih
    refine ⟨fun v rest hsz hnd => ?_, fun v vs rest hsz => ?_, fun k v fs rest hsz => ?_⟩
    · cases v with
      | null => simp [stringifyVal, parseVal, dropLit]
      | bool b => cases b <;> simp [stringifyVal, parseVal, dropLit]
      | num n =>
        by_cases hneg : n < 0
        · have hspan := spanDigits_append (natChars_digits n.natAbs) hnd
          have hne := natChars_ne_nil n.natAbs
          simp only [stringifyVal, if_pos hneg, List.cons_append]
          simp [parseVal, hspan, hne, digitsVal_natChars]
          rw [abs_of_neg hneg, neg_neg]
        · obtain ⟨d, ds, hnat, hd⟩ := natChars_cons n.toNat
          have hspan := spanDigits_append (natChars_digits n.toNat) hnd
          rw [hnat] at hspan
          simp only [List.cons_append] at hspan
          simp only [stringifyVal, if_neg hneg, hnat, List.cons_append]
          simp [parseVal, isDigit_ne_n hd, isDigit_ne_t hd, isDigit_ne_f hd,
            isDigit_ne_quote hd, isDigit_ne_lsqb hd, isDigit_ne_lcub hd,
            isDigit_ne_minus hd, hd, hspan]
          rw [← hnat, digitsVal_natChars]
          omega
      | str s =>
        simp only [stringifyVal, List.cons_append, List.append_assoc, List.singleton_append]
        simp [parseVal, parseStringRest_escape, string_mk_data]
      | arr vs =>
        cases vs with
        | nil => simp [stringifyVal, parseVal]
        | cons v vs2 =>
          obtain ⟨c0, t, hel, hc0⟩ := stringifyElems_cons_head v vs2
          have hsz2 : sizeL (v :: vs2) ≤ fuel := by simp [sizeB] at hsz; omega
          have hE := ihE v vs2 rest hsz2
          rw [hel] at hE
          simp only [List.cons_append] at hE
          simp only [stringifyVal, hel, List.cons_append, List.append_assoc,
            List.singleton_append]
          simp [parseVal, hc0, hE]
      | obj fs =>
        rcases fs with _ | ⟨⟨k, v⟩, fs2⟩
        · simp [stringifyVal, parseVal]
        · obtain ⟨t, hfl⟩ := stringifyFields_head k v fs2
          have hsz2 : sizeF ((k, v) :: fs2) ≤ fuel := by simp [sizeB] at hsz; omega
          have hF := ihF k v fs2 rest hsz2
          rw [hfl] at hF
          simp only [List.cons_append] at hF
          simp only [stringifyVal, hfl, List.cons_append, List.append_assoc,
            List.singleton_append]
          simp [parseVal, hF]
    · cases vs with
      | nil =>
        have hszB : sizeB v ≤ fuel := by simp [sizeL] at hsz; omega
        have hP := ihP v (']' :: rest) hszB (by simp [nonDigitStart])
        simp only [stringifyElems]
        simp [parseElems, hP]
      | cons w vs2 =>
        have hszB : sizeB v ≤ fuel := by simp [sizeL] at hsz; omega
        have hszL : sizeL (w :: vs2) ≤ fuel := by
          simp only [sizeL] at hsz ⊢; omega
        have hP := ihP v (',' :: (stringifyElems w vs2 ++ ']' :: rest)) hszB
          (by simp [nonDigitStart])
        have hE := ihE w vs2 rest hszL
        simp only [stringifyElems, List.append_assoc, List.cons_append]
        simp [parseElems, hP, hE]
    · rcases fs with _ | ⟨⟨k2, v2⟩, fs2⟩
      · have hszB : sizeB v ≤ fuel := by simp [sizeF] at hsz; omega
        have hP := ihP v ('}' :: rest) hszB (by simp [nonDigitStart])
        simp only [stringifyFields, List.cons_append, List.append_assoc]
        simp [parseFields, parseStringRest_escape, hP, string_mk_data]
      · have hszB : sizeB v ≤ fuel := by simp [sizeF] at hsz; omega
        have hszF : sizeF ((k2, v2) :: fs2) ≤ fuel := by
          simp only [sizeF] at hsz ⊢; omega
        have hP := ihP v (',' :: (stringifyFields k2 v2 fs2 ++ '}' :: rest)) hszB
          (by simp [nonDigitStart])
        have hF := ihF k2 v2 fs2 rest hszF
        simp only [stringifyFields, List.cons_append, List.append_assoc]
        simp [parseFields, parseStringRest_escape, hP, hF, string_mk_data]

theorem stringify_length_pos (v : Json) : 1 ≤ (stringifyVal v).length := by
  obtain ⟨c, cs, h, _⟩ := stringify_head v
  simp [h]

mutual

theorem sizeB_le_length (v : Json) : sizeB v ≤ (stringifyVal v).length := by
  cases v with
  | null => simp [sizeB, stringifyVal]
  | bool b => cases b <;> simp [sizeB, stringifyVal]
  | num n =>
    have := stringify_length_pos (Json.num n)
    simp only [sizeB]
    omega
  | str s => simp [sizeB, stringifyVal]
  | arr vs =>
    cases vs with
    | nil => simp [sizeB, sizeL, stringifyVal]
    | cons v vs =>
      have h := sizeL_le_length v vs
      simp only [sizeB, stringifyVal, List.length_cons, List.length_append,
        List.length_singleton]
      omega
  | obj fs =>
    rcases fs with _ | ⟨⟨k, v⟩, fs⟩
    · simp [sizeB, sizeF, stringifyVal]
    · have h := sizeF_le_length k v fs
      simp only [sizeB, stringifyVal, List.length_cons, List.length_append,
        List.length_singleton]
      omega
termination_by sizeOf v
decreasing_by all_goals (simp_wf <;> omega)

theorem sizeL_le_length (v : Json) (vs : List Json) :
    sizeL (v :: vs) ≤ (stringifyElems v vs).length + 1 := by
  cases vs with
  | nil =>
    have h1 := sizeB_le_length v
    have hp := stringify_length_pos v
    have hm : max (sizeB v) (sizeL ([] : List Json)) ≤ (stringifyVal v).length :=
      max_le (by omega) (by simp [sizeL]; omega)
    simp only [sizeL, stringifyElems]
    omega
  | cons w vs2 =>
    have h1 := sizeB_le_length v
    have h2 := sizeL_le_length w vs2
    have hm : max (sizeB v) (sizeL (w :: vs2)) ≤
        (stringifyVal v).length + (stringifyElems w vs2).length + 1 :=
      max_le (by omega) (by omega)
    rw [sizeL, stringifyElems]
    simp only [List.length_append, List.length_cons]
    omega
termination_by sizeOf v + sizeOf vs
decreasing_by all_goals (simp_wf <;> omega)

theorem sizeF_le_length (k : String) (v : Json) (fs : List (String × Json)) :
    sizeF ((k, v) :: fs) ≤ (stringifyFields k v fs).length + 1 := by
  rcases fs with _ | ⟨⟨k2, v2⟩, fs2⟩
  · have h1 := sizeB_le_length v
    have hm : max (sizeB v) (sizeF ([] : List (String × Json))) ≤
        (stringifyVal v).length + 1 :=
      max_le (by omega) (by simp [sizeF])
    simp only [sizeF, stringifyFields, List.length_cons, List.length_append]
    omega
  · have h1 := sizeB_le_length v
    have h2 := sizeF_le_length k2 v2 fs2
    have hm : max (sizeB v) (sizeF ((k2, v2) :: fs2)) ≤
        (escapeChars k.data).length + (stringifyVal v).length +
          (stringifyFields k2 v2 fs2).length + 3 :=
      max_le (by omega) (by omega)
    rw [sizeF, stringifyFields]
    simp only [List.length_append, List.length_cons]
    omega
termination_by sizeOf v + sizeOf fs
decreasing_by all_goals (simp_wf <;> omega)

end

theorem parse_stringify (v : Json) : Json.parse (stringifyVal v) = some v := by
  have h := (parse_spec ((stringifyVal v).length + 1)).1 v []
    (by have := sizeB_le_length v; omega) rfl
  simp only [List.append_nil] at h
  simp [Json.parse, h]

theorem fromJSON_toJSON (m : Message) (fresh : String) (hid : m.id ≠ "") :
    Message.fromJSONChars fresh m.toJSONChars = some m := by
  unfold Message.fromJSONChars Message.toJSONChars
  rw [parse_stringify]
  simp [objGet, lookupField, optStr, mkMessage, hid]

theorem chunkIndexOf_createChunk (oid : String) (i n : Nat) (d : List Char)
    (ty fr : String) : chunkIndexOf (createChunk oid i n d ty fr) = (i : Int) := rfl

theorem totalChunksOf_createChunk (oid : String) (i n : Nat) (d : List Char)
    (ty fr : String) : totalChunksOf (createChunk oid i n d ty fr) = (n : Int) := rfl

theorem originalMessageIdOf_createChunk (oid : String) (i n : Nat) (d : List Char)
    (ty fr : String) : originalMessageIdOf (createChunk oid i n d ty fr) = oid := rfl

theorem chunkDataOf_createChunk (oid : String) (i n : Nat) (d : List Char)
    (ty fr : String) : (chunkDataOf (createChunk oid i n d ty fr)).data = d := rfl

theorem type_createChunk (oid : String) (i n : Nat) (d : List Char)
    (ty fr : String) : (createChunk oid i n d ty fr).type = "chunk" := rfl

theorem chunksOfChars_flatten (size : Nat) (hsz : 1 ≤ size) :
    ∀ l : List Char, (chunksOfChars size l).flatten = l
  | [] => by simp [chunksOfChars]
  | c :: cs => by
    rw [chunksOfChars]
    simp only [List.flatten_cons]
    rw [chunksOfChars_flatten size hsz (cs.drop (size - 1))]
    have hdrop : cs.drop (size - 1) = (c :: cs).drop size := by
      cases size with
      | zero => omega
      | succ k => simp
    rw [hdrop, List.take_append_drop]
termination_by l => l.length
decreasing_by simp_wf <;> omega

theorem insertionSort_eq_of_perm_sorted (delivered msgs : List Message)
    (hperm : delivered.Perm msgs)
    (hsorted : List.Sorted chunkLT msgs)
    (hnodup : (msgs.map chunkIndexOf).Nodup) :
    List.insertionSort chunkLE delivered = msgs := by
  have hp1 : (List.insertionSort chunkLE delivered).Perm msgs :=
    (List.perm_insertionSort chunkLE delivered).trans hperm
  have hle : List.Sorted chunkLE (List.insertionSort chunkLE delivered) :=
    List.sorted_insertionSort chunkLE delivered
  have hnd2 : ((List.insertionSort chunkLE delivered).map chunkIndexOf).Nodup :=
    ((hp1.map chunkIndexOf).nodup_iff).mpr hnodup
  have hne : List.Pairwise (fun a b : Message => chunkIndexOf a ≠ chunkIndexOf b)
      (List.insertionSort chunkLE delivered) := List.pairwise_map.mp hnd2
  have hlt : List.Sorted chunkLT (List.insertionSort chunkLE delivered) :=
    (hle.and hne).imp (fun h => lt_of_le_of_ne h.1 h.2)
  exact List.eq_of_perm_of_sorted hp1 hlt hsorted

theorem chunkMessage_sorted (E : Message) (S : Nat) (fresh : Nat → String) :
    List.Sorted chunkLT (chunkMessage E S fresh) := by
  unfold chunkMessage
  rw [List.Sorted, List.pairwise_map]
  have h : List.Pairwise (· < ·) ((chunksOfChars S E.toJSONChars).enum.map Prod.fst) := by
    rw [List.enum_map_fst]
    exact List.pairwise_lt_range _
  have h2 := List.pairwise_map.mp h
  exact h2.imp (fun hab => by
    simp only [chunkIndexOf_createChunk, chunkLT]
    exact_mod_cast hab)

theorem chunkMessage_nodup_idx (E : Message) (S : Nat) (fresh : Nat → String) :
    ((chunkMessage E S fresh).map chunkIndexOf).Nodup := by
  unfold chunkMessage
  rw [List.map_map]
  have heq : (chunkIndexOf ∘ fun p : Nat × List Char =>
      createChunk E.id p.1 (chunksOfChars S E.toJSONChars).length p.2 E.type (fresh p.1)) =
      (fun p : Nat × List Char => (p.1 : Int)) := by
    funext p
    simp [chunkIndexOf_createChunk]
  rw [heq]
  have : (fun p : Nat × List Char => (p.1 : Int)) =
      (fun i : Nat => (i : Int)) ∘ Prod.fst := rfl
  rw [this, ← List.map_map, List.enum_map_fst]
  exact (List.nodup_range _).map (fun a b => by omega)

theorem chunkMessage_oid (E : Message) (S : Nat) (fresh : Nat → String) :
    ∀ c ∈ chunkMessage E S fresh, originalMessageIdOf c = E.id := by
  intro c hc
  unfold chunkMessage at hc
  obtain ⟨p, _, rfl⟩ := List.mem_map.mp hc
  exact originalMessageIdOf_createChunk _ _ _ _ _ _

theorem chunkMessage_data (E : Message) (S : Nat) (fresh : Nat → String) :
    (chunkMessage E S fresh).map (fun c => (chunkDataOf c).data) =
      chunksOfChars S E.toJSONChars := by
  unfold chunkMessage
  rw [List.map_map]
  have heq : ((fun c => (chunkDataOf c).data) ∘ fun p : Nat × List Char =>
      createChunk E.id p.1 (chunksOfChars S E.toJSONChars).length p.2 E.type (fresh p.1)) =
      Prod.snd := by
    funext p
    exact chunkDataOf_createChunk _ _ _ _ _ _
  rw [heq, List.enum_map_snd]

theorem chunkMessage_length (E : Message) (S : Nat) (fresh : Nat → String) :
    (chunkMessage E S fresh).length = (chunksOfChars S E.toJSONChars).length := by
  unfold chunkMessage
  simp

theorem chunkMessage_total (E : Message) (S : Nat) (fresh : Nat → String) :
    ∀ c ∈ chunkMessage E S fresh,
      totalChunksOf c = ((chunksOfChars S E.toJSONChars).length : Int) := by
  intro c hc
  unfold chunkMessage at hc
  obtain ⟨p, _, rfl⟩ := List.mem_map.mp hc
  exact totalChunksOf_createChunk _ _ _ _ _ _

/-- C1: for every message E whose serialized JSON length exceeds the chunking
threshold and every chunk size S > 0, reassembling the chunk sequence
produced by `MessageProtocol.chunkMessage(E, S)`, delivered in any order,
returns a message equal to E (same version, type, payload, and id).  The
hypothesis `E.id ≠ ""` records that every `Message` the constructor can
build carries a non-empty id (`id || uuidv4()`). -/
theorem chunk_roundtrip_any_order (E : Message) (S : Nat) (fresh : Nat → String)
    (fr : String) (delivered : List Message)
    (hid : E.id ≠ "") (hS : 0 < S)
    (hbig : shouldChunkMessage E.toJSONChars.length DEFAULT_CHUNKING = true)
    (hperm : delivered.Perm (chunkMessage E S fresh)) :
    reassembleChunks fr delivered = some E := by
  have hlenpos : 1 ≤ E.toJSONChars.length := by
    simp only [shouldChunkMessage, DEFAULT_CHUNKING, Bool.and_eq_true,
      decide_eq_true_eq] at hbig
    omega
  obtain ⟨c0, t0, hE⟩ : ∃ c0 t0, E.toJSONChars = c0 :: t0 := by
    cases h : E.toJSONChars with
    | nil => rw [h] at hlenpos; simp at hlenpos
    | cons a b => exact ⟨a, b, rfl⟩
  have hcs : chunksOfChars S E.toJSONChars =
      (c0 :: t0).take S :: chunksOfChars S (t0.drop (S - 1)) := by
    rw [hE, chunksOfChars]
  have hmsgs_ne : chunkMessage E S fresh ≠ [] := by
    intro h
    have := chunkMessage_length E S fresh
    rw [h, hcs] at this
    simp at this
  obtain ⟨m0, ms, hdel⟩ : ∃ m0 ms, delivered = m0 :: ms := by
    cases hd : delivered with
    | nil => rw [hd] at hperm; exact absurd hperm.symm.eq_nil hmsgs_ne
    | cons a b => exact ⟨a, b, rfl⟩
  have hsort := insertionSort_eq_of_perm_sorted delivered _ hperm
    (chunkMessage_sorted E S fresh) (chunkMessage_nodup_idx E S fresh)
  have hhead : (chunkMessage E S fresh).headI ∈ chunkMessage E S fresh := by
    cases hq : chunkMessage E S fresh with
    | nil => exact absurd hq hmsgs_ne
    | cons q0 qs => exact List.mem_cons_self _ _
  have htot := chunkMessage_total E S fresh _ hhead
  have hoid := chunkMessage_oid E S fresh _ hhead
  have hlen : ((chunkMessage E S fresh).length : Int) =
      ((chunksOfChars S E.toJSONChars).length : Int) := by
    exact_mod_cast congrArg Nat.cast (chunkMessage_length E S fresh)
  have hall : (chunkMessage E S fresh).all
      (fun c => originalMessageIdOf c =
        originalMessageIdOf (chunkMessage E S fresh).headI) = true := by
    rw [List.all_eq_true]
    intro c hc
    simp only [decide_eq_true_eq]
    rw [chunkMessage_oid E S fresh c hc, hoid]
  rw [hdel, reassembleChunks, ← hdel, hsort]
  rw [if_neg (not_not_intro (by rw [hlen, htot]))]
  simp only [hall, not_true_eq_false, if_false]
  rw [chunkMessage_data, chunksOfChars_flatten S hS, fromJSON_toJSON E fr hid]

theorem escapeChars_replicate (n : Nat) :
    escapeChars (List.replicate n 'a') = List.replicate n 'a' := by
  induction n with
  | zero => rfl
  | succ k ih => simp [List.replicate_succ, escapeChars, escapeChar, ih]

theorem string_data_mk (l : List Char) : (String.mk l).data = l := rfl

theorem e1big_serialized : e1big.toJSONChars = stringifyVal (Json.obj
    [("version", Json.str "1.0"), ("type", Json.str "tx_request"),
     ("payload", Json.str (String.mk (List.replicate 8300 'a'))), ("id", Json.str "m1")]) := rfl

theorem e1big_len : e1big.toJSONChars.length = 8360 := by
  rw [e1big_serialized]
  simp only [stringifyVal, stringifyFields, string_data_mk, escapeChars_replicate]
  simp only [escapeChars, escapeChar, List.length_cons, List.length_append,
    List.length_replicate, List.nil_append, List.cons_append, List.length_nil]
  simp

/-- C1 witness: a concrete 8360-character transaction request, chunked at
the default 2048-character slice size, reassembles to itself. -/
theorem chunk_roundtrip_any_order_witness :
    e1big.id ≠ "" ∧ 0 < 2048 ∧
    shouldChunkMessage e1big.toJSONChars.length DEFAULT_CHUNKING = true ∧
    reassembleChunks "u2" (chunkMessage e1big 2048 (fun _ => "cid")) = some e1big := by
  have hlen : e1big.toJSONChars.length = 8360 := e1big_len
  refine ⟨by decide, by decide, ?_, ?_⟩
  · rw [shouldChunkMessage, hlen]
    decide
  · exact chunk_roundtrip_any_order e1big 2048 (fun _ => "cid") "u2" _
      (by decide) (by decide)
      (by rw [shouldChunkMessage, hlen]; decide)
      (List.Perm.refl _)

/-- C9: deserializing the serialization of a message yields a message with
the same version, type, payload and id.  `fresh` is the uuid that
`Message.fromJSON`'s constructor would draw for an absent or empty id; the
hypothesis `m.id ≠ ""` records that every constructor-built `Message`
carries a non-empty id (`this.id = id || uuidv4()`). -/
theorem message_json_roundtrip (m : Message) (fresh : String) (hid : m.id ≠ "") :
    Message.fromJSONChars fresh m.toJSONChars = some m :=
  fromJSON_toJSON m fresh hid

/-- C9 witness: the round trip at a concrete transaction request. -/
theorem message_json_roundtrip_witness :
    e2.id ≠ "" ∧ Message.fromJSONChars "u1" e2.toJSONChars = some e2 :=
  ⟨by decide, message_json_roundtrip e2 "u1" (by decide)⟩

/-- C2 counterexample: delivering chunk 0 of the two-chunk message `e2`
twice changes the reassembly outcome.  Delivered once (then chunk 1), the
message is reassembled and emitted; delivered twice, the duplicate triggers
the completion check early, reassembly of the two copies fails to parse,
the buffer is purged, and nothing is ever emitted even after chunk 1
arrives. -/
theorem duplicate_chunk_changes_outcome_cex :
    (AP_run "f" apStart [c2chunkA, c2chunkB]).2 = [e2] ∧
    (AP_run "f" apStart [c2chunkA, c2chunkA, c2chunkB]).2 = [] :=
  ⟨rfl, rfl⟩

theorem storeLookup_storeSet (s : List (String × List Message)) (k : String)
    (v : List Message) : storeLookup (storeSet s k v) k = some v := by
  induction s with
  | nil => simp [storeSet, storeLookup]
  | cons kv rest ih =>
    obtain ⟨k2, v2⟩ := kv
    by_cases h : k2 = k
    · simp [storeSet, h, storeLookup]
    · simp [storeSet, h, storeLookup, ih]

/-- C2 amended: `handleChunk` appends every delivery to the buffer as an
array push — duplicate indices are NOT stored last-write-wins.  A chunk
already present in the buffer is appended again (when this does not yet
trigger the completion check), so duplicate delivery grows the ingested
chunk list and advances the `chunks.length === totalChunks` condition. -/
theorem duplicate_chunk_appended (fresh : String) (st : APState) (c : Message)
    (prev : List Message)
    (hprev : storeLookup st.chunkStorage (originalMessageIdOf c) = some prev)
    (hdup : c ∈ prev)
    (hlen : ((prev.length + 1 : Nat) : Int) ≠ totalChunksOf c) :
    storeLookup (AP_handleChunk fresh st c).1.chunkStorage (originalMessageIdOf c)
      = some (prev ++ [c]) := by
  have hcond : ¬ (((prev ++ [c]).length : Int) = totalChunksOf c) := by
    simpa using hlen
  unfold AP_handleChunk
  simp only [hprev, Option.getD_some, if_neg hcond]
  simp [storeLookup_storeSet]

/-- C2 amended witness: re-delivering the only chunk of a three-chunk
buffer stores it twice. -/
theorem duplicate_chunk_appended_witness :
    storeLookup apDupState.chunkStorage (originalMessageIdOf c2triple) = some [c2triple] ∧
    c2triple ∈ [c2triple] ∧
    (((1 + 1 : Nat) : Int) ≠ totalChunksOf c2triple) ∧
    storeLookup (AP_handleChunk "f" apDupState c2triple).1.chunkStorage
      (originalMessageIdOf c2triple) = some ([c2triple] ++ [c2triple]) :=
  ⟨rfl, List.mem_singleton.mpr rfl, by decide,
    duplicate_chunk_appended "f" apDupState c2triple [c2triple] rfl
      (List.mem_singleton.mpr rfl) (by decide)⟩

/-- C3: the EIP receiver holds chunks 0 and 2 of a three-chunk message
(chunk 1 missing) forever: nothing is emitted or sent, and the pending
buffer for "m9" is still present after processing — the code has no
`chunkReassemblyTimeout`; no purge and no ReassemblyTimeout report exist. -/
theorem missing_chunk_buffer_persists :
    (EIP_run "f" eipStart [c3chunk0, c3chunk2]).2.emitted = [] ∧
    (EIP_run "f" eipStart [c3chunk0, c3chunk2]).2.sent = [] ∧
    estoreLookup (EIP_run "f" eipStart [c3chunk0, c3chunk2]).1.chunkStorage "m9"
      = some [c3chunk0, c3chunk2] :=
  ⟨rfl, rfl, rfl⟩

/-- C4: on a non-chunk message with an unsupported version, the receiver
leaves its state unchanged, emits nothing to the correlation layer, and
sends exactly one error envelope with version "1.0" whose payload carries
the text `Unsupported protocol version: <v>` and the original message's id
as `received_id`. -/
theorem unsupported_version_error_reply (fresh : String) (st : EIPState)
    (m : EIPMessage) (hv : m.version ≠ "1.0") (hnc : m.type ≠ "chunk") :
    (EIP_handleEIPMessage fresh st m).1 = st ∧
    (EIP_handleEIPMessage fresh st m).2.emitted = [] ∧
    ∃ e, (EIP_handleEIPMessage fresh st m).2.sent = [e] ∧
      e.version = "1.0" ∧
      objGet e.payload "message" =
        some (Json.str ("Unsupported protocol version: " ++ m.version)) ∧
      objGet e.payload "received_id" = m.id.map Json.str := by
  have hvs : isVersionSupported m.version = false := by
    simp [isVersionSupported, EIP_PROTOCOL_VERSION, hv]
  unfold EIP_handleEIPMessage
  rw [if_neg (by simp [hvs] : ¬ isVersionSupported m.version = true)]
  refine ⟨rfl, rfl, _, rfl, rfl, ?_, ?_⟩
  · cases m.id <;> simp [createEIPMessage, objGet, lookupField, optStr]
  · cases m.id <;> simp [createEIPMessage, objGet, lookupField, optStr]

/-- C4 witness: a connect with version 2.0. -/
theorem unsupported_version_error_reply_witness :
    c4msg.version ≠ "1.0" ∧ c4msg.type ≠ "chunk" ∧
    ((EIP_handleEIPMessage "fx" eipStart c4msg).1 = eipStart ∧
      (EIP_handleEIPMessage "fx" eipStart c4msg).2.emitted = [] ∧
      ∃ e, (EIP_handleEIPMessage "fx" eipStart c4msg).2.sent = [e] ∧
        e.version = "1.0" ∧
        objGet e.payload "message" =
          some (Json.str ("Unsupported protocol version: " ++ c4msg.version)) ∧
        objGet e.payload "received_id" = c4msg.id.map Json.str) :=
  ⟨by decide, by decide,
    unsupported_version_error_reply "fx" eipStart c4msg (by decide) (by decide)⟩

/-- C5 counterexample: a message decoded from inbound audio while
`isTransmitting` is true (a single-message send in flight, listening still
active) is delivered to the correlation layer anyway. -/
theorem delivery_during_transmit_cex :
    c5state.isTransmitting = true ∧
    (AP_processDecodedText "f" c5state c5text).2 = [c5msg] :=
  ⟨rfl, rfl⟩

theorem AP_handleChunk_storage_eq (fresh : String) (c : Message)
    (st1 st2 : APState) (h : st1.chunkStorage = st2.chunkStorage) :
    (AP_handleChunk fresh st1 c).1.chunkStorage = (AP_handleChunk fresh st2 c).1.chunkStorage ∧
    (AP_handleChunk fresh st1 c).2 = (AP_handleChunk fresh st2 c).2 := by
  unfold AP_handleChunk
  rw [h]
  by_cases hcond : ((((storeLookup st2.chunkStorage (originalMessageIdOf c)).getD [] ++
      [c]).length : Int) = totalChunksOf c)
  · simp only [if_pos hcond]
    cases reassembleChunks fresh
      ((storeLookup st2.chunkStorage (originalMessageIdOf c)).getD [] ++ [c]) <;>
      simp
  · simp only [if_neg hcond]
    simp

/-- C5 amended: the inbound decode path never consults `isTransmitting`:
delivery (both the emitted messages and the chunk-storage effect) is
identical whatever the flag's value.  Self-reception is prevented only
where listening is stopped entirely (the chunked send path). -/
theorem delivery_ignores_transmit_flag (fresh : String) (text : List Char)
    (st : APState) (b1 b2 : Bool) :
    ((AP_processDecodedText fresh { st with isTransmitting := b1 } text).1.chunkStorage,
      (AP_processDecodedText fresh { st with isTransmitting := b1 } text).2) =
    ((AP_processDecodedText fresh { st with isTransmitting := b2 } text).1.chunkStorage,
      (AP_processDecodedText fresh { st with isTransmitting := b2 } text).2) := by
  unfold AP_processDecodedText
  cases h : Message.fromJSONChars fresh text with
  | none => rfl
  | some m =>
    unfold AP_handleReceivedMessage
    by_cases hty : m.type = "chunk"
    · simp only [hty, if_true, if_pos]
      have h2 := AP_handleChunk_storage_eq fresh m
        { st with isTransmitting := b1 } { st with isTransmitting := b2 } rfl
      rw [h2.1, h2.2]
    · simp [hty]

theorem waitRun_resolved_absorbs (expectedType : String) (r : Option Message) :
    ∀ evs, waitRun expectedType ⟨some r, false, false⟩ evs = ⟨some r, false, false⟩
  | [] => rfl
  | e :: es => by
    have hstep : waitStep expectedType ⟨some r, false, false⟩ e = ⟨some r, false, false⟩ := by
      cases e with
      | deliver m => simp [waitStep]
      | timerFire => simp [waitStep]
    rw [waitRun, hstep]
    exact waitRun_resolved_absorbs expectedType r es

/-- C6: one registered `waitForMessage` expectation resolves exactly once,
with mutually exclusive outcomes: its final resolution equals the first
trigger in the event sequence — the first delivered message of the expected
type (resolving with that message), or the timer firing (resolving with
null), whichever comes first — and once resolved the handler is removed
and the timer is no longer scheduled, so no second resolution can occur. -/
theorem waitForMessage_single_resolution (expectedType : String) (evs : List WaitEvent) :
    (waitRun expectedType waitInit evs).resolved = firstResolution expectedType evs ∧
    ((waitRun expectedType waitInit evs).resolved.isSome = true →
      (waitRun expectedType waitInit evs).handlerOn = false ∧
      (waitRun expectedType waitInit evs).timerOn = false) := by
  induction evs with
  | nil => exact ⟨rfl, by intro h; simp [waitRun, waitInit] at h⟩
  | cons e es ih =>
    cases e with
    | deliver m =>
      by_cases hm : m.type = expectedType
      · have hstep : waitStep expectedType waitInit (.deliver m) =
            ⟨some (some m), false, false⟩ := by
          simp [waitStep, waitInit, hm]
        rw [waitRun, hstep, waitRun_resolved_absorbs]
        exact ⟨by simp [firstResolution, hm], fun _ => ⟨rfl, rfl⟩⟩
      · have hstep : waitStep expectedType waitInit (.deliver m) = waitInit := by
          simp [waitStep, waitInit, hm]
        rw [waitRun, hstep]
        exact ⟨by rw [ih.1]; simp [firstResolution, hm], ih.2⟩
    | timerFire =>
      have hstep : waitStep expectedType waitInit .timerFire = ⟨some none, false, false⟩ := by
        simp [waitStep, waitInit]
      rw [waitRun, hstep, waitRun_resolved_absorbs]
      exact ⟨by simp [firstResolution], fun _ => ⟨rfl, rfl⟩⟩

/-- C6 witness: after the timer fires, the handler is detached and the
timer consumed. -/
theorem waitForMessage_single_resolution_witness :
    (waitRun "connect_response" waitInit [WaitEvent.timerFire]).handlerOn = false ∧
    (waitRun "connect_response" waitInit [WaitEvent.timerFire]).timerOn = false :=
  (waitForMessage_single_resolution "connect_response" [WaitEvent.timerFire]).2 rfl

/-- C7 counterexample: two version-1.0 chunk envelopes reassemble into a
message claiming version 9.9; `handleChunk` emits it to the correlation
layer directly, while the same message delivered whole is blocked by the
version policy.  The version check is therefore NOT applied to the
reassembled message. -/
theorem reassembled_skips_version_check_cex :
    isVersionSupported c7target.version = false ∧
    (EIP_run "f" eipStart [c7chunkA, c7chunkB]).2.emitted = [c7target] ∧
    (EIP_handleEIPMessage "f" eipStart c7target).2.emitted = [] :=
  ⟨rfl, rfl, rfl⟩

/-- C7 amended: when a chunk envelope (itself version-checked) completes a
buffer, the joined data is parsed and the result is emitted as-is — cast to
`EIPMessage` with no validation and no version policy applied to the
reassembled message — and no error envelope is sent for it. -/
theorem reassembled_emitted_without_version_check (fresh : String) (st : EIPState)
    (c : EIPMessage) (j : Json)
    (hv : isVersionSupported c.version = true) (hty : c.type = "chunk")
    (hlen : (((eipPendingFor st (originalMessageIdOfE c)).length + 1 : Nat) : Int) =
      totalChunksOfE c)
    (hparse : Json.parse (eipJoinedData
      (eipPendingFor st (originalMessageIdOfE c) ++ [c])) = some j) :
    (EIP_handleEIPMessage fresh st c).2.emitted = [eipFromJson j] ∧
    (EIP_handleEIPMessage fresh st c).2.sent = [] := by
  have hcond : (((eipPendingFor st (originalMessageIdOfE c) ++ [c]).length : Nat) : Int) =
      totalChunksOfE c := by simpa using hlen
  unfold EIP_handleEIPMessage
  rw [if_pos hv, if_pos hty]
  unfold EIP_handleChunk
  simp only [hcond, if_pos, if_true, hparse]
  simp

/-- C7 amended witness: the concrete version-9.9 reassembly emitted after
the second chunk arrives. -/
theorem reassembled_emitted_without_version_check_witness :
    isVersionSupported c7chunkB.version = true ∧ c7chunkB.type = "chunk" ∧
    isVersionSupported (eipFromJson c7parsed).version = false ∧
    (EIP_handleEIPMessage "f" ((EIP_handleEIPMessage "f" eipStart c7chunkA).1)
      c7chunkB).2.emitted = [eipFromJson c7parsed] := by
  refine ⟨rfl, rfl, rfl, ?_⟩
  exact (reassembled_emitted_without_version_check "f"
    ((EIP_handleEIPMessage "f" eipStart c7chunkA).1) c7chunkB c7parsed
    rfl rfl (by rfl) (by rfl)).1

/-- C8 counterexample: the chunking threshold is NOT smaller than the chunk
size in either stack: the EIP sender chunks above 120 characters into
80-character slices (120 > 80), and the default config chunks above 8192
into 2048-character slices (8192 > 2048). -/
theorem threshold_not_below_chunk_size_cex :
    ¬ (eipChunkingThreshold < eipChunkSize) ∧
    ¬ (DEFAULT_CHUNKING.maxMessageSize < DEFAULT_CHUNKING.chunkSize) := by
  decide

/-- C8 amended: `sendEIPMessage` transmits a message whose serialized text
is at most 120 characters as a single unchunked transmission, and one whose
text exceeds 120 characters as the chunk-envelope sequence (whose slices
concatenate back to the text); the chunk size (80) is smaller than the
threshold (120), not the other way around. -/
theorem send_chunking_decision :
    (∀ (m : EIPMessage) (fresh : Nat → String),
      (eipToJSONChars m).length ≤ eipChunkingThreshold →
        sendEIPMessagePlan m fresh = .single (eipToJSONChars m)) ∧
    (∀ (m : EIPMessage) (fresh : Nat → String),
      eipChunkingThreshold < (eipToJSONChars m).length →
        sendEIPMessagePlan m fresh = .chunked (eipChunkMessages m fresh) ∧
        (∀ c ∈ eipChunkMessages m fresh, c.type = "chunk") ∧
        ((eipChunkMessages m fresh).map (fun c => (chunkDataOfE c).data)).flatten =
          eipToJSONChars m) ∧
    eipChunkSize < eipChunkingThreshold := by
  refine ⟨?_, ?_, by decide⟩
  · intro m fresh h
    simp only [sendEIPMessagePlan]
    rw [if_neg (not_lt.mpr h)]
  · intro m fresh h
    refine ⟨?_, ?_, ?_⟩
    · simp only [sendEIPMessagePlan]
      rw [if_pos h]
    · intro c hc
      simp only [eipChunkMessages, List.mem_map] at hc
      obtain ⟨p, _, rfl⟩ := hc
      rfl
    · simp only [eipChunkMessages]
      rw [List.map_map]
      have heq : ((fun c => (chunkDataOfE c).data) ∘ fun p : Nat × List Char =>
          (⟨m.version, "chunk",
            Json.obj
              ((match m.id with
                | some i => [("originalMessageId", Json.str i)]
                | none => []) ++
                [("originalType", .str m.type), ("chunkIndex", .num p.1),
                 ("totalChunks", .num (chunksOfChars eipChunkSize (eipToJSONChars m)).length),
                 ("chunkData", .str (String.mk p.2))]),
            some (fresh p.1)⟩ : EIPMessage)) = Prod.snd := by
        funext p
        cases m.id <;> rfl
      rw [heq, List.enum_map_snd, chunksOfChars_flatten eipChunkSize (by decide)]

theorem e8small_len : (eipToJSONChars e8small).length = 47 := by
  simp [e8small, createEIPMessage, eipToJSONChars, eipToJson, stringifyVal,
    stringifyFields, escapeChars, escapeChar]

theorem e8big_serialized : eipToJSONChars e8big = stringifyVal (Json.obj
    [("version", Json.str "1.0"), ("type", Json.str "tx_request"),
     ("payload", Json.obj [("transaction", Json.str (String.mk (List.replicate 100 'a')))]),
     ("id", Json.str "m7")]) := rfl

theorem e8big_len : (eipToJSONChars e8big).length = 176 := by
  rw [e8big_serialized]
  simp only [stringifyVal, stringifyFields, string_data_mk, escapeChars_replicate]
  simp only [escapeChars, escapeChar, List.length_cons, List.length_append,
    List.length_replicate, List.nil_append, List.cons_append, List.length_nil]
  simp

/-- C8 witness: an id-less connect (47 characters) goes out unchunked; a
176-character transaction request goes out as the chunk sequence. -/
theorem send_chunking_decision_witness :
    sendEIPMessagePlan e8small (fun _ => "k") = .single (eipToJSONChars e8small) ∧
    sendEIPMessagePlan e8big (fun _ => "k") = .chunked (eipChunkMessages e8big (fun _ => "k")) :=
  ⟨send_chunking_decision.1 e8small (fun _ => "k") (by rw [e8small_len]; decide),
    (send_chunking_decision.2.1 e8big (fun _ => "k") (by rw [e8big_len]; decide)).1⟩

/-- C10: `createEIPMessage` omits the id field for an id-less connect and
otherwise supplies a string id (the given one, or a fresh short-uuid);
`validateEIPMessage` accepts id-less messages; and the responder answering
an id-less connect leaves `received_id` absent in its connect_response
payload. -/
theorem createEIPMessage_id_policy :
    (∀ (p : Json) (fresh : String),
      createEIPMessage "connect" p IdArg.undef fresh =
        ⟨EIP_PROTOCOL_VERSION, "connect", p, none⟩) ∧
    (∀ (ty : String) (p : Json) (fresh : String), ty ≠ "connect" →
      (createEIPMessage ty p IdArg.undef fresh).id = some fresh) ∧
    (∀ (ty : String) (p : Json) (s fresh : String), s ≠ "" →
      (createEIPMessage ty p (IdArg.str s) fresh).id = some s) ∧
    (∀ m : EIPMessage, m.id = none → eipTypes.contains m.type = true →
      typeofIsObject m.payload = true → validateEIPMessage (eipToJson m) = true) ∧
    (∀ (walletAddress : String) (m : EIPMessage) (fresh : String), m.id = none →
      objGet (handleConnectRequest walletAddress m fresh).payload "received_id" = none) := by
  refine ⟨?_, ?_, ?_, ?_, ?_⟩
  · intro p fresh; rfl
  · intro ty p fresh h; simp [createEIPMessage, h]
  · intro ty p s fresh h; simp [createEIPMessage, h]
  · intro m hid hty hpay
    have hty2 : m.type ∈ eipTypes := by simpa using hty
    simp [validateEIPMessage, eipToJson, hid, objGet, lookupField, optStr,
      hty, hty2, hpay]
    rfl
  · intro walletAddress m fresh hid
    simp [handleConnectRequest, createEIPMessage, hid, objGet, lookupField, optStr]

/-- C10 witness: the concrete id policy at each shape of argument, and the
responder's reply to a concrete id-less connect. -/
theorem createEIPMessage_id_policy_witness :
    createEIPMessage "connect" (Json.obj []) IdArg.undef "f" =
      ⟨EIP_PROTOCOL_VERSION, "connect", Json.obj [], none⟩ ∧
    (createEIPMessage "ack" (Json.obj []) IdArg.undef "f").id = some "f" ∧
    (createEIPMessage "tx_response" (Json.obj []) (IdArg.str "zz") "f").id = some "zz" ∧
    validateEIPMessage (eipToJson c10connect) = true ∧
    objGet (handleConnectRequest "0xabc" c10connect "g").payload "received_id" = none :=
  ⟨createEIPMessage_id_policy.1 _ _,
    createEIPMessage_id_policy.2.1 "ack" _ _ (by decide),
    createEIPMessage_id_policy.2.2.1 "tx_response" _ "zz" "f" (by decide),
    createEIPMessage_id_policy.2.2.2.1 c10connect rfl (by decide) rfl,
    createEIPMessage_id_policy.2.2.2.2 "0xabc" c10connect "g" rfl⟩

end GW
